import Mathlib

/-!
Shallow embedding of the `rusty-renderer` sources (`src/display.rs`, `src/mesh.rs`,
`src/vector.rs`, `src/triangle.rs`, `src/main.rs`) and proofs about them.

Modelling conventions:
* `u8` bytes are `Nat` (values written are byte literals), `usize` is `Nat`,
  `u32` values are `Nat` with explicit `% 2^32` where the source casts, and
  `i32` is `Int` with every arithmetic operation wrapped into `[-2^31, 2^31)`
  by `wrap32` (two's-complement release semantics; debug builds panic at the
  same overflow points, so wherever `wrap32` is proved to be the identity the
  two profiles and the ideal integers all agree).
* `Vec<u8>` is `List Nat`; Rust index-assignment is `List.set`.
* `f32` is idealized as an exact ordered-field value: `ℚ` where computations
  must run, `ℝ` (with exact `Real.cos`/`Real.sin`) for the rotation theorems.
* Functions that can panic are modelled as `Option`-returning functions, with
  `none` for the panic.
-/

namespace RustyRenderer

/-! ## display.rs: constants and pixel buffer operations -/

/-- `WINDOW_WIDTH` from `display.rs`. -/
def WINDOW_WIDTH : Nat := 800

/-- `WINDOW_HEIGHT` from `display.rs`. -/
def WINDOW_HEIGHT : Nat := 600

/-- Modulus of `u32` arithmetic, used for the `as u32` casts in the source. -/
def u32Mod : Nat := 2 ^ 32

/-- An RGB color; models the `r`, `g`, `b` bytes of an `sdl2::pixels::Color`
(the alpha byte is never read by the renderer). -/
structure Color where
  r : Nat
  g : Nat
  b : Nat
deriving DecidableEq

/-- White, `Color::RGBA(255, 255, 255, 255)` without the unused alpha byte. -/
def white : Color := ⟨255, 255, 255⟩

/-- `clear_color_buffer` from `display.rs`: replaces the buffer with a fresh
all-zero buffer of `WINDOW_WIDTH * WINDOW_HEIGHT * 3` bytes. -/
def clearColorBuffer (_buf : List Nat) : List Nat :=
  List.replicate (WINDOW_WIDTH * WINDOW_HEIGHT * 3) 0

/-- `draw_pixel` from `display.rs`.  The guard compares `y` against
`color_buffer.len() as u32 / (WINDOW_WIDTH * 3)`; the `as u32` cast truncates,
hence the `% u32Mod`.  In range, the three bytes at `(y*WINDOW_WIDTH + x)*3`
are overwritten with the color. -/
def drawPixel (buf : List Nat) (x y : Nat) (c : Color) : List Nat :=
  if WINDOW_WIDTH ≤ x ∨ buf.length % u32Mod / (WINDOW_WIDTH * 3) ≤ y then
    buf
  else
    ((buf.set ((y * WINDOW_WIDTH + x) * 3) c.r).set
      ((y * WINDOW_WIDTH + x) * 3 + 1) c.g).set
      ((y * WINDOW_WIDTH + x) * 3 + 2) c.b

/-- The `as u32` cast applied to the `i32` coordinates in `draw_line`'s calls
to `draw_pixel`: two's-complement truncation to the low 32 bits. -/
def toU32 (z : Int) : Nat := (z % (u32Mod : Int)).toNat

/-- Two's-complement wrapping into the `i32` range `[-2^31, 2^31)`: the
value of every `i32` arithmetic operation in release builds.  (Debug builds
panic exactly where `wrap32` is not the identity, so a run in which every
`wrap32` is the identity is also a panic-free debug run.) -/
def wrap32 (z : Int) : Int := (z + 2 ^ 31) % 2 ^ 32 - 2 ^ 31

/-- The body of `draw_line`'s `loop` from `display.rs`, as a fuel-indexed
recursion on the mutable state `(x0, y0, err)`.  Each iteration draws the
current pixel, breaks once `(x0, y0) == (x1, y1)`, and otherwise steps `x0`
when `e2 > dy` and `y0` when `e2 < dx`, accumulating `dy`/`dx` into `err`
(`e2 = 2 * err` is computed once, before either step).  The whole loop state
is `i32`, so every arithmetic operation wraps through `wrap32`.  The `loop`
in the source has no fuel; for endpoints where the loop provably breaks
within `drawLine`'s fuel (proved below for all coordinates of magnitude
below `2^28`) this is the exact semantics of the source loop, and for every
input the first `fuel` iterations are faithful to the source. -/
def drawLineLoop (fuel : Nat) (buf : List Nat) (x0 y0 x1 y1 dx dy sx sy err : Int)
    (c : Color) : List Nat :=
  match fuel with
  | 0 => buf
  | f + 1 =>
    if x0 = x1 ∧ y0 = y1 then drawPixel buf (toU32 x0) (toU32 y0) c
    else
      drawLineLoop f (drawPixel buf (toU32 x0) (toU32 y0) c)
        (if wrap32 (2 * err) > dy then wrap32 (x0 + sx) else x0)
        (if wrap32 (2 * err) < dx then wrap32 (y0 + sy) else y0)
        x1 y1 dx dy sx sy
        (if wrap32 (2 * err) < dx
          then wrap32 ((if wrap32 (2 * err) > dy then wrap32 (err + dy) else err) + dx)
          else if wrap32 (2 * err) > dy then wrap32 (err + dy) else err) c

/-- `draw_line` from `display.rs`: Bresenham setup (`dx = (x1 - x0).abs()`,
`dy = -(y1 - y0).abs()`, step signs from comparing the endpoints,
`err = dx + dy`, all of it `i32` arithmetic, hence wrapped) followed by the
loop.  The fuel `|x1-x0| + |y1-y0| + 1` is proved sufficient below whenever
no `i32` operation overflows; at overflowing inputs the source loop need
not terminate at all (`draw_line_terminates_cex`), and this fuel-truncated
model then returns the buffer after the first iterations only. -/
def drawLine (buf : List Nat) (x0 y0 x1 y1 : Int) (c : Color) : List Nat :=
  drawLineLoop ((x1 - x0).natAbs + (y1 - y0).natAbs + 1) buf x0 y0 x1 y1
    (wrap32 |wrap32 (x1 - x0)|) (wrap32 (-(wrap32 |wrap32 (y1 - y0)|)))
    (if x0 < x1 then 1 else -1) (if y0 < y1 then 1 else -1)
    (wrap32 (wrap32 |wrap32 (x1 - x0)| + wrap32 (-(wrap32 |wrap32 (y1 - y0)|)))) c

/-- The trace of pixel coordinates visited by `drawLineLoop`, in drawing
order; same state machine as `drawLineLoop` (wrapping `i32` arithmetic),
recording `(x0, y0)` instead of writing into the buffer. -/
def lineLoopPts (fuel : Nat) (x0 y0 x1 y1 dx dy sx sy err : Int) : List (Int × Int) :=
  match fuel with
  | 0 => []
  | f + 1 =>
    if x0 = x1 ∧ y0 = y1 then [(x0, y0)]
    else
      (x0, y0) ::
        lineLoopPts f
          (if wrap32 (2 * err) > dy then wrap32 (x0 + sx) else x0)
          (if wrap32 (2 * err) < dx then wrap32 (y0 + sy) else y0)
          x1 y1 dx dy sx sy
          (if wrap32 (2 * err) < dx
            then wrap32 ((if wrap32 (2 * err) > dy then wrap32 (err + dy) else err) + dx)
            else if wrap32 (2 * err) > dy then wrap32 (err + dy) else err)

/-- The pixel-coordinate trace of `drawLine`. -/
def linePts (x0 y0 x1 y1 : Int) : List (Int × Int) :=
  lineLoopPts ((x1 - x0).natAbs + (y1 - y0).natAbs + 1) x0 y0 x1 y1
    (wrap32 |wrap32 (x1 - x0)|) (wrap32 (-(wrap32 |wrap32 (y1 - y0)|)))
    (if x0 < x1 then 1 else -1) (if y0 < y1 then 1 else -1)
    (wrap32 (wrap32 |wrap32 (x1 - x0)| + wrap32 (-(wrap32 |wrap32 (y1 - y0)|))))

/-- The same state machine over ideal (non-wrapping) integers: the
overflow-free idealization of the loop, used as the analysis intermediary
for the Bresenham correctness proofs.  `lineLoopPts_eq_ideal` below proves
it coincides with the wrapping trace `lineLoopPts` whenever the loop state
provably stays inside the `i32` range. -/
def lineLoopPtsIdeal (fuel : Nat) (x0 y0 x1 y1 dx dy sx sy err : Int) :
    List (Int × Int) :=
  match fuel with
  | 0 => []
  | f + 1 =>
    if x0 = x1 ∧ y0 = y1 then [(x0, y0)]
    else
      (x0, y0) ::
        lineLoopPtsIdeal f
          (if 2 * err > dy then x0 + sx else x0)
          (if 2 * err < dx then y0 + sy else y0)
          x1 y1 dx dy sx sy
          ((if 2 * err > dy then err + dy else err) + (if 2 * err < dx then dx else 0))

/-- Minor-axis coordinate of the classic Bresenham line after `i` major-axis
steps, for a line with major-axis span `a` and minor-axis span `b ≤ a`:
the integer nearest `b*i/a`, halves rounded down.  (`(2*b*i + a - 1) / (2*a)`
in natural-number division.) -/
def bresStep (a b i : Nat) : Nat := (2 * b * i + (a - 1)) / (2 * a)

/-- The `n`-th classic-Bresenham pixel of a line starting at `(x0, y0)` with
major span `a`, minor span `b`, stepping directions `sx` (major) and `sy`
(minor): `n` major-axis steps and `bresStep a b n` minor-axis steps. -/
def bresPix (x0 y0 sx sy : Int) (a b : Nat) (n : Nat) : Int × Int :=
  (x0 + sx * (n : Int), y0 + sy * (bresStep a b n : Int))

/-- Modelled from the spec: the pixel list of "the classic integer Bresenham
algorithm for all octants" (spec §4.4).  Walk the major axis one pixel per
step from `(x0,y0)` towards `(x1,y1)`; the minor-axis coordinate is the
integer nearest to the ideal line (ties rounded towards the start), i.e.
`bresStep`.  In the steep octants the roles of the axes are swapped.  This
is the reference the source's `draw_line` is compared against in C1. -/
def bresenhamRef (x0 y0 x1 y1 : Int) : List (Int × Int) :=
  let a := (x1 - x0).natAbs
  let b := (y1 - y0).natAbs
  let sx : Int := if x0 < x1 then 1 else -1
  let sy : Int := if y0 < y1 then 1 else -1
  if b ≤ a then
    (List.range (a + 1)).map (bresPix x0 y0 sx sy a b)
  else
    (List.range (b + 1)).map fun j : Nat => Prod.swap (bresPix y0 x0 sy sx b a j)

/-! ## Checked variants for the memory-safety claim (C9)

Rust's index-assignment `buffer[i] = v` panics when `i` is out of bounds.
`setChecked` models that panic as `none`; the checked drawing functions
thread the `Option` through.  Proving them equal to the unchecked versions
shows `draw_line` never writes outside the buffer. -/

/-- Rust `buffer[i] = v`: the write succeeds only in bounds. -/
def setChecked (buf : List Nat) (i v : Nat) : Option (List Nat) :=
  if i < buf.length then some (buf.set i v) else none

/-- `draw_pixel` with panicking (bounds-checked) writes. -/
def drawPixelChecked (buf : List Nat) (x y : Nat) (c : Color) : Option (List Nat) :=
  if WINDOW_WIDTH ≤ x ∨ buf.length % u32Mod / (WINDOW_WIDTH * 3) ≤ y then
    some buf
  else
    (setChecked buf ((y * WINDOW_WIDTH + x) * 3) c.r).bind fun b1 =>
      (setChecked b1 ((y * WINDOW_WIDTH + x) * 3 + 1) c.g).bind fun b2 =>
        setChecked b2 ((y * WINDOW_WIDTH + x) * 3 + 2) c.b

/-- `draw_line`'s loop with panicking writes. -/
def drawLineLoopChecked (fuel : Nat) (buf : List Nat) (x0 y0 x1 y1 dx dy sx sy err : Int)
    (c : Color) : Option (List Nat) :=
  match fuel with
  | 0 => some buf
  | f + 1 =>
    (drawPixelChecked buf (toU32 x0) (toU32 y0) c).bind fun buf1 =>
      if x0 = x1 ∧ y0 = y1 then some buf1
      else
        drawLineLoopChecked f buf1
          (if wrap32 (2 * err) > dy then wrap32 (x0 + sx) else x0)
          (if wrap32 (2 * err) < dx then wrap32 (y0 + sy) else y0)
          x1 y1 dx dy sx sy
          (if wrap32 (2 * err) < dx
            then wrap32 ((if wrap32 (2 * err) > dy then wrap32 (err + dy) else err) + dx)
            else if wrap32 (2 * err) > dy then wrap32 (err + dy) else err) c

/-- `draw_line` with panicking writes. -/
def drawLineChecked (buf : List Nat) (x0 y0 x1 y1 : Int) (c : Color) : Option (List Nat) :=
  drawLineLoopChecked ((x1 - x0).natAbs + (y1 - y0).natAbs + 1) buf x0 y0 x1 y1
    (wrap32 |wrap32 (x1 - x0)|) (wrap32 (-(wrap32 |wrap32 (y1 - y0)|)))
    (if x0 < x1 then 1 else -1) (if y0 < y1 then 1 else -1)
    (wrap32 (wrap32 |wrap32 (x1 - x0)| + wrap32 (-(wrap32 |wrap32 (y1 - y0)|)))) c

/-! ## vector.rs: value types and rotations

`f32` components are idealized as values of an arbitrary commutative ring
`K` (`ℚ` for the computable parts, `ℝ` for trigonometry).  The rotation
helpers receive `cos angle` and `sin angle` as values, since the source
computes `angle.cos()` / `angle.sin()` once and uses them in the standard
2D rotation formulas. -/

/-- `Vec2` from `vector.rs`. -/
structure Vec2 (K : Type) where
  x : K
  y : K
deriving DecidableEq

/-- `Vec3` from `vector.rs`. -/
structure Vec3 (K : Type) where
  x : K
  y : K
  z : K
deriving DecidableEq

/-- `Vec3::rotate_x` from `vector.rs`, with `c = angle.cos()` and
`s = angle.sin()`:  `y' = y*cos - z*sin`, `z' = y*sin + z*cos`, `x` kept. -/
def rotateX [CommRing K] (v : Vec3 K) (c s : K) : Vec3 K :=
  ⟨v.x, v.y * c - v.z * s, v.y * s + v.z * c⟩

/-- `Vec3::rotate_y` from `vector.rs`: `x' = x*cos + z*sin`,
`z' = -x*sin + z*cos`, `y` kept. -/
def rotateY [CommRing K] (v : Vec3 K) (c s : K) : Vec3 K :=
  ⟨v.x * c + v.z * s, v.y, -v.x * s + v.z * c⟩

/-- `Vec3::rotate_z` from `vector.rs`: `x' = x*cos - y*sin`,
`y' = x*sin + y*cos`, `z` kept. -/
def rotateZ [CommRing K] (v : Vec3 K) (c s : K) : Vec3 K :=
  ⟨v.x * c - v.y * s, v.x * s + v.y * c, v.z⟩

/-! ## main.rs: perspective projection -/

/-- `Renderer::project` from `main.rs`:
`screen = (fov_factor * p.x / p.z, fov_factor * p.y / p.z)` (perspective
divide, before recentering).  Over `ℚ`, exact field division. -/
def project (fovFactor : ℚ) (point : Vec3 ℚ) : Vec2 ℚ :=
  ⟨fovFactor * point.x / point.z, fovFactor * point.y / point.z⟩

/-! ## triangle.rs and mesh.rs: the mesh data model -/

/-- `Face` from `triangle.rs`: three 1-based `usize` indices into a vertex
sequence. -/
structure Face where
  a : Nat
  b : Nat
  c : Nat
deriving DecidableEq

/-- `Mesh` from `mesh.rs`. -/
structure Mesh where
  vertices : List (Vec3 ℚ)
  faces : List Face
  rotation : Vec3 ℚ
  scale : Vec3 ℚ
  translation : Vec3 ℚ
deriving DecidableEq

/-- `CUBE_VERTICES` from `mesh.rs`: the 8 corners of the unit cube. -/
def CUBE_VERTICES : List (Vec3 ℚ) :=
  [⟨-1, -1, -1⟩, ⟨-1, 1, -1⟩, ⟨1, 1, -1⟩, ⟨1, -1, -1⟩,
   ⟨1, 1, 1⟩, ⟨1, -1, 1⟩, ⟨-1, 1, 1⟩, ⟨-1, -1, 1⟩]

/-- `CUBE_FACES` from `mesh.rs`: 12 triangles, 2 per cube side, with 1-based
vertex indices. -/
def CUBE_FACES : List Face :=
  [⟨1, 2, 3⟩, ⟨1, 3, 4⟩,
   ⟨4, 3, 5⟩, ⟨4, 5, 6⟩,
   ⟨6, 5, 7⟩, ⟨6, 7, 8⟩,
   ⟨8, 7, 2⟩, ⟨8, 2, 1⟩,
   ⟨7, 5, 3⟩, ⟨7, 3, 2⟩,
   ⟨8, 1, 4⟩, ⟨8, 4, 6⟩]

/-- `Mesh::new_cube` from `mesh.rs`: copies `CUBE_VERTICES` and `CUBE_FACES`
into fresh sequences; zero rotation, unit scale, zero translation. -/
def newCube : Mesh :=
  { vertices := CUBE_VERTICES
    faces := CUBE_FACES
    rotation := ⟨0, 0, 0⟩
    scale := ⟨1, 1, 1⟩
    translation := ⟨0, 0, 0⟩ }

/-! ## mesh.rs: `Mesh::load_from_file`

The text format is processed on `List Char` (a Lean `String` is a list of
chars).  Every `unwrap` in the source (missing token, failed parse) is
modelled as `none`.  Values of `f32` literals are exact decimals in `ℚ`;
the numeric value of the non-finite literals `inf`/`infinity`/`nan` (which
Rust's `f32` parser accepts) is not modelled — they parse to `0`, and no
claim inspects a vertex loaded from one. -/

/-- Value of a digit string, most significant first. -/
def digitsVal (l : List Char) : Nat :=
  l.foldl (fun n c => n * 10 + (c.toNat - '0'.toNat)) 0

/-- The unsigned part of Rust's `f32` grammar:
`inf | infinity | nan | Digit+ | Digit+ . Digit* | Digit* . Digit+`, with an
optional `e|E [+|-] Digit+` exponent on the numeric forms, case-insensitive
keywords, and nothing left over.  The result is the exact value as a
numerator/denominator pair (built without `ℚ` arithmetic so that concrete
runs reduce in the kernel): mantissa digits over `10^fracDigits`, scaled by
the exponent. -/
def parseF32Mag (w : List Char) : Option (Nat × Nat) :=
  let low := w.map Char.toLower
  if low = ['i', 'n', 'f'] ∨ low = ['i', 'n', 'f', 'i', 'n', 'i', 't', 'y'] ∨
      low = ['n', 'a', 'n'] then
    some (0, 1)
  else
    let ds1 := w.takeWhile Char.isDigit
    let r1 := w.dropWhile Char.isDigit
    let ds2 := match r1 with
      | '.' :: r => r.takeWhile Char.isDigit
      | _ => []
    let r2 := match r1 with
      | '.' :: r => r.dropWhile Char.isDigit
      | _ => r1
    if ds1 = [] ∧ ds2 = [] then none
    else
      match r2 with
      | [] => some (digitsVal (ds1 ++ ds2), 10 ^ ds2.length)
      | e :: r =>
        if e = 'e' ∨ e = 'E' then
          let eneg : Bool := match r with
            | '-' :: _ => true
            | _ => false
          let er := match r with
            | '-' :: rr => rr
            | '+' :: rr => rr
            | rr => rr
          if er ≠ [] ∧ er.all Char.isDigit then
            some (if eneg then (digitsVal (ds1 ++ ds2), 10 ^ (ds2.length + digitsVal er))
                  else (digitsVal (ds1 ++ ds2) * 10 ^ digitsVal er, 10 ^ ds2.length))
          else none
        else none

/-- Rust `str::parse::<f32>()`: optional sign then the unsigned grammar; the
value is the exact rational. -/
def parseF32 (w : List Char) : Option ℚ :=
  match w with
  | '-' :: r => (parseF32Mag r).map fun p => mkRat (-(p.1 : Int)) p.2
  | '+' :: r => (parseF32Mag r).map fun p => mkRat (p.1 : Int) p.2
  | r => (parseF32Mag r).map fun p => mkRat (p.1 : Int) p.2

/-- Rust `str::parse::<usize>()`: optional `+`, a nonempty digit string, and
the value must fit a 64-bit `usize`. -/
def parseUsize (w : List Char) : Option Nat :=
  let r := match w with
    | '+' :: r => r
    | r => r
  if r ≠ [] ∧ r.all Char.isDigit then
    if digitsVal r < 2 ^ 64 then some (digitsVal r) else none
  else none

/-- Rust `str::lines()`: split at `\n`, drop the optional final line ending,
strip one trailing `\r` from each line (so `\r\n` also ends a line). -/
def rustLines (s : List Char) : List (List Char) :=
  let parts := s.splitOn '\n'
  let parts := if parts.getLast? = some [] then parts.dropLast else parts
  parts.map fun l => if l.getLast? = some '\r' then l.dropLast else l

/-- Rust `str::split_whitespace()`: maximal runs of non-whitespace chars. -/
def splitWhitespace (l : List Char) : List (List Char) :=
  (l.splitOnP Char.isWhitespace).filter (· ≠ [])

/-- Rust `word.split('/').next().unwrap()`: the prefix of `word` before the
first `/` (the whole word when there is no `/`). -/
def firstSlashSegment (w : List Char) : List Char := (w.splitOn '/').headD []

/-- The `f`-line word loop: parse the leading `/`-segment of every token, in
order, failing on the first token whose segment is not a `usize`. -/
def parseIndices : List (List Char) → Option (List Nat)
  | [] => some []
  | w :: ws =>
    (parseUsize (firstSlashSegment w)).bind fun i =>
      (parseIndices ws).map fun is => i :: is

/-- One iteration of `load_from_file`'s line loop: dispatch on the first
whitespace token.  `v` parses three floats and appends a vertex; `f` parses
the leading `/`-segment of every remaining token and appends a face built
from the first three indices (missing ones stay `0`, from `Face::new(0,0,0)`);
anything else is skipped. -/
def loadLine (st : List (Vec3 ℚ) × List Face) (line : List Char) :
    Option (List (Vec3 ℚ) × List Face) :=
  match splitWhitespace line with
  | [] => some st
  | w :: rest =>
    if w = ['v'] then
      match rest with
      | sx :: sy :: sz :: _ =>
        (parseF32 sx).bind fun x =>
          (parseF32 sy).bind fun y =>
            (parseF32 sz).bind fun z =>
              some (st.1 ++ [⟨x, y, z⟩], st.2)
      | _ => none
    else if w = ['f'] then
      (parseIndices rest).bind fun idxs =>
        some (st.1, st.2 ++ [⟨idxs.getD 0 0, idxs.getD 1 0, idxs.getD 2 0⟩])
    else some st

/-- `Mesh::load_from_file` from `mesh.rs`, on the file's contents (the
file-open `unwrap` is outside the model).  `none` is the source's load-time
panic on malformed data. -/
def loadFromFile (contents : String) : Option Mesh :=
  ((rustLines contents.data).foldlM loadLine ([], [])).bind fun st =>
    some { vertices := st.1
           faces := st.2
           rotation := ⟨0, 0, 0⟩
           scale := ⟨1, 1, 1⟩
           translation := ⟨0, 0, 0⟩ }

/-- A line on which `load_from_file` panics: a `v` line with fewer than three
following tokens or a leading token among the first three that fails float
parsing, or an `f` line some of whose tokens have a non-`usize` first
`/`-segment. -/
def badLine (line : List Char) : Bool :=
  match splitWhitespace line with
  | [] => false
  | w :: rest =>
    if w = ['v'] then
      decide (rest.length < 3) || (parseF32 (rest.getD 0 [])).isNone ||
        (parseF32 (rest.getD 1 [])).isNone || (parseF32 (rest.getD 2 [])).isNone
    else if w = ['f'] then
      rest.any fun word => (parseUsize (firstSlashSegment word)).isNone
    else false

/-! ## Theorems for the easy claims -/

/-- C4: after `clear_color_buffer` runs on any buffer, the buffer has length
`WINDOW_WIDTH * WINDOW_HEIGHT * 3` and every byte read from it is `0`. -/
theorem clear_color_buffer_spec :
    ∀ buf : List Nat,
      (clearColorBuffer buf).length = WINDOW_WIDTH * WINDOW_HEIGHT * 3 ∧
      ∀ i : Nat, i < (clearColorBuffer buf).length →
        (clearColorBuffer buf)[i]? = some 0 := by
  intro buf
  refine ⟨List.length_replicate _ _, fun i hi => ?_⟩
  rw [clearColorBuffer, List.length_replicate] at hi
  simp [clearColorBuffer, List.getElem?_replicate, hi]

/-- Witness for C4 at a concrete buffer and index. -/
theorem clear_color_buffer_spec_witness :
    (clearColorBuffer [7, 7, 7]).length = WINDOW_WIDTH * WINDOW_HEIGHT * 3 ∧
    (clearColorBuffer [7, 7, 7])[5]? = some 0 :=
  ⟨(clear_color_buffer_spec [7, 7, 7]).1,
   (clear_color_buffer_spec [7, 7, 7]).2 5 (by
     rw [(clear_color_buffer_spec [7, 7, 7]).1]
     norm_num [WINDOW_WIDTH, WINDOW_HEIGHT])⟩

/-- C6: projecting `(0, 0, d)` with any `fov_factor` yields the screen
offset `(0, 0)` (before recentering), for any `d ≠ 0`. -/
theorem project_origin_axis :
    ∀ (F d : ℚ), d ≠ 0 → project F ⟨0, 0, d⟩ = ⟨0, 0⟩ := by
  intro F d _
  simp [project]

/-- Witness for C6 at `fov_factor = 700`, `distance = 5`. -/
theorem project_origin_axis_witness :
    project 700 ⟨0, 0, 5⟩ = ⟨0, 0⟩ :=
  project_origin_axis 700 5 (by norm_num)

/-- C7: rotating by `θ` and then by `-θ` about the same axis returns the
vector exactly (in the real-valued idealization of `f32`), for each of
`rotate_x`, `rotate_y`, `rotate_z`. -/
theorem rotate_inverse :
    ∀ (v : Vec3 ℝ) (θ : ℝ),
      rotateX (rotateX v (Real.cos θ) (Real.sin θ)) (Real.cos (-θ)) (Real.sin (-θ)) = v ∧
      rotateY (rotateY v (Real.cos θ) (Real.sin θ)) (Real.cos (-θ)) (Real.sin (-θ)) = v ∧
      rotateZ (rotateZ v (Real.cos θ) (Real.sin θ)) (Real.cos (-θ)) (Real.sin (-θ)) = v := by
  intro v θ
  have h := Real.sin_sq_add_cos_sq θ
  obtain ⟨vx, vy, vz⟩ := v
  refine ⟨?_, ?_, ?_⟩ <;>
    simp only [rotateX, rotateY, rotateZ, Real.cos_neg, Real.sin_neg, Vec3.mk.injEq] <;>
    refine ⟨?_, ?_, ?_⟩ <;>
    (first
      | trivial
      | ring1
      | linear_combination vx * h
      | linear_combination vy * h
      | linear_combination vz * h)

/-- C10: `new_cube` yields 8 vertices and 12 faces, and every face index is
within `[1, vertices.len()]`, so the transform pipeline's `a-1`, `b-1`,
`c-1` accesses are in bounds for the cube mesh. -/
theorem new_cube_face_invariant :
    newCube.vertices.length = 8 ∧ newCube.faces.length = 12 ∧
    ∀ f ∈ newCube.faces,
      (1 ≤ f.a ∧ f.a ≤ newCube.vertices.length ∧
       1 ≤ f.b ∧ f.b ≤ newCube.vertices.length ∧
       1 ≤ f.c ∧ f.c ≤ newCube.vertices.length) ∧
      f.a - 1 < newCube.vertices.length ∧
      f.b - 1 < newCube.vertices.length ∧
      f.c - 1 < newCube.vertices.length := by
  decide

/-- Witness for C10 at the first cube face. -/
theorem new_cube_face_invariant_witness :
    (1 ≤ (Face.mk 1 2 3).a ∧ (Face.mk 1 2 3).a ≤ newCube.vertices.length ∧
     1 ≤ (Face.mk 1 2 3).b ∧ (Face.mk 1 2 3).b ≤ newCube.vertices.length ∧
     1 ≤ (Face.mk 1 2 3).c ∧ (Face.mk 1 2 3).c ≤ newCube.vertices.length) ∧
    (Face.mk 1 2 3).a - 1 < newCube.vertices.length ∧
    (Face.mk 1 2 3).b - 1 < newCube.vertices.length ∧
    (Face.mk 1 2 3).c - 1 < newCube.vertices.length :=
  new_cube_face_invariant.2.2 ⟨1, 2, 3⟩ (by decide)

/-- C5: loading a file with exactly the two lines `v 1.0 2.0 3.0` and
`f 1 1 1` yields one vertex `(1, 2, 3)` and one face `{1, 1, 1}`. -/
theorem load_two_line_file :
    (loadFromFile "v 1.0 2.0 3.0\nf 1 1 1").map Mesh.vertices = some [⟨1, 2, 3⟩] ∧
    (loadFromFile "v 1.0 2.0 3.0\nf 1 1 1").map Mesh.faces = some [⟨1, 1, 1⟩] := by
  constructor <;> decide

/-! ## C3: `draw_pixel` -/

/-- C3 (amended): out-of-range coordinates (`x ≥ WIDTH` or
`y ≥ buffer.len() / (WIDTH*3)`) make `draw_pixel` a silent no-op — in
particular `x = WIDTH` — and, for buffers shorter than `2^32` bytes (where
the `len() as u32` cast in the guard loses nothing), in-range coordinates
write exactly the three color bytes at offset `(y*WIDTH + x)*3` and leave
every other byte unchanged. -/
theorem draw_pixel_spec :
    (∀ (buf : List Nat) (x y : Nat) (c : Color),
        WINDOW_WIDTH ≤ x ∨ buf.length / (WINDOW_WIDTH * 3) ≤ y →
          drawPixel buf x y c = buf) ∧
    (∀ (buf : List Nat) (c : Color), drawPixel buf WINDOW_WIDTH 0 c = buf) ∧
    (∀ (buf : List Nat) (x y : Nat) (c : Color),
        buf.length < u32Mod →
        x < WINDOW_WIDTH → y < buf.length / (WINDOW_WIDTH * 3) →
        (drawPixel buf x y c).length = buf.length ∧
        (drawPixel buf x y c)[(y * WINDOW_WIDTH + x) * 3]? = some c.r ∧
        (drawPixel buf x y c)[(y * WINDOW_WIDTH + x) * 3 + 1]? = some c.g ∧
        (drawPixel buf x y c)[(y * WINDOW_WIDTH + x) * 3 + 2]? = some c.b ∧
        ∀ j : Nat, j ≠ (y * WINDOW_WIDTH + x) * 3 →
          j ≠ (y * WINDOW_WIDTH + x) * 3 + 1 →
          j ≠ (y * WINDOW_WIDTH + x) * 3 + 2 →
          (drawPixel buf x y c)[j]? = buf[j]?) := by
  have hnoop : ∀ (buf : List Nat) (x y : Nat) (c : Color),
      WINDOW_WIDTH ≤ x ∨ buf.length / (WINDOW_WIDTH * 3) ≤ y →
        drawPixel buf x y c = buf := by
    intro buf x y c h
    rw [drawPixel, if_pos]
    rcases h with h | h
    · exact Or.inl h
    · exact Or.inr (le_trans (Nat.div_le_div_right (Nat.mod_le _ _)) h)
  refine ⟨hnoop, fun buf c => hnoop buf WINDOW_WIDTH 0 c (Or.inl le_rfl), ?_⟩
  intro buf x y c hlen hx hy
  have hmod : buf.length % u32Mod = buf.length := Nat.mod_eq_of_lt hlen
  have hbound : (y + 1) * (WINDOW_WIDTH * 3) ≤ buf.length := by
    rw [← Nat.le_div_iff_mul_le (by norm_num [WINDOW_WIDTH])]
    omega
  have hofs : (y * WINDOW_WIDTH + x) * 3 + 2 < buf.length := by
    have hW : WINDOW_WIDTH = 800 := rfl
    rw [hW] at hbound hx ⊢
    omega
  have hguard : ¬ (WINDOW_WIDTH ≤ x ∨ buf.length % u32Mod / (WINDOW_WIDTH * 3) ≤ y) := by
    rw [hmod]; omega
  rw [drawPixel, if_neg hguard]
  refine ⟨by simp, ?_, ?_, ?_, ?_⟩
  · rw [List.getElem?_set_ne (by omega), List.getElem?_set_ne (by omega),
      List.getElem?_set_self (by omega)]
  · rw [List.getElem?_set_ne (by omega),
      List.getElem?_set_self (by simp only [List.length_set]; omega)]
  · rw [List.getElem?_set_self (by simp only [List.length_set]; omega)]
  · intro j h1 h2 h3
    rw [List.getElem?_set_ne (by omega), List.getElem?_set_ne (by omega),
      List.getElem?_set_ne (by omega)]

/-- Witness for C3: on a one-row 2400-byte buffer, `x = WIDTH` is a no-op
and `(x, y) = (1, 0)` writes byte 3 while leaving byte 6 unchanged. -/
theorem draw_pixel_spec_witness :
    drawPixel (List.replicate 2400 0) WINDOW_WIDTH 5 white = List.replicate 2400 0 ∧
    (drawPixel (List.replicate 2400 0) 1 0 white)[(0 * WINDOW_WIDTH + 1) * 3]? =
      some white.r ∧
    (drawPixel (List.replicate 2400 0) 1 0 white)[(0 * WINDOW_WIDTH + 1) * 3 + 2]? =
      some white.b := by
  have h := draw_pixel_spec.2.2 (List.replicate 2400 0) 1 0 white
    (by norm_num [u32Mod]) (by norm_num [WINDOW_WIDTH])
    (by simp only [List.length_replicate]; norm_num [WINDOW_WIDTH])
  exact ⟨draw_pixel_spec.2.1 (List.replicate 2400 0) white, h.2.1, h.2.2.2.1⟩

/-- Counterexample for C3 as stated: for the buffer of `2^32 + 2400` zero
bytes at `(x, y) = (0, 1)`, the claim's out-of-range condition is false (the
buffer has 1,789,570 full rows), yet `draw_pixel` leaves the buffer
unchanged — its guard uses `len() as u32`, which truncates the length to
2400 (one row) — so the byte at offset `(1*WIDTH + 0)*3 = 2400` stays 0
instead of becoming `white.r = 255`. -/
theorem draw_pixel_spec_cex :
    ¬ ((WINDOW_WIDTH ≤ 0 ∨
          (List.replicate (u32Mod + 2400) 0).length / (WINDOW_WIDTH * 3) ≤ 1 →
          drawPixel (List.replicate (u32Mod + 2400) 0) 0 1 white =
            List.replicate (u32Mod + 2400) 0) ∧
        (¬ (WINDOW_WIDTH ≤ 0 ∨
            (List.replicate (u32Mod + 2400) 0).length / (WINDOW_WIDTH * 3) ≤ 1) →
          (drawPixel (List.replicate (u32Mod + 2400) 0) 0 1 white)[(1 * WINDOW_WIDTH + 0) * 3]? =
            some white.r)) := by
  rintro ⟨-, h⟩
  have hlen : (List.replicate (u32Mod + 2400) (0 : Nat)).length = u32Mod + 2400 :=
    List.length_replicate _ _
  have hcond : ¬ (WINDOW_WIDTH ≤ 0 ∨
      (List.replicate (u32Mod + 2400) 0).length / (WINDOW_WIDTH * 3) ≤ 1) := by
    rw [hlen]
    norm_num [WINDOW_WIDTH, u32Mod]
  have hmod : (u32Mod + 2400) % u32Mod = 2400 := by norm_num [u32Mod]
  have hdraw : drawPixel (List.replicate (u32Mod + 2400) 0) 0 1 white =
      List.replicate (u32Mod + 2400) 0 := by
    rw [drawPixel, if_pos]
    rw [hlen, hmod]
    norm_num [WINDOW_WIDTH]
  have := h hcond
  rw [hdraw, List.getElem?_replicate] at this
  have h24 : (1 * WINDOW_WIDTH + 0) * 3 < u32Mod + 2400 := by
    norm_num [WINDOW_WIDTH, u32Mod]
  rw [if_pos h24] at this
  exact absurd (Option.some.injEq _ _ ▸ this) (by norm_num [white])

/-! ## C2: load-time parse failures -/

/-- The index loop fails as soon as one word fails. -/
lemma parseIndices_eq_none_of_mem :
    ∀ (l : List (List Char)) (w : List Char), w ∈ l →
      parseUsize (firstSlashSegment w) = none → parseIndices l = none := by
  intro l
  induction l with
  | nil => intro w hw; cases hw
  | cons b t ih =>
    intro w hw hf
    rcases List.mem_cons.mp hw with rfl | hwt
    · simp [parseIndices, hf]
    · rcases hfb : parseUsize (firstSlashSegment b) with - | x
      · simp [parseIndices, hfb]
      · simp [parseIndices, hfb, ih w hwt hf]

/-- A line that `badLine` flags makes `loadLine` fail regardless of the
accumulated state. -/
lemma loadLine_of_badLine (line : List Char) (h : badLine line = true) :
    ∀ st, loadLine st line = none := by
  intro st
  rcases hw : splitWhitespace line with - | ⟨w, rest⟩
  · rw [badLine, hw] at h; simp at h
  rw [badLine, hw] at h
  rw [loadLine, hw]
  simp only at h ⊢
  by_cases hv : w = ['v']
  · rw [if_pos hv] at h ⊢
    rcases hr : rest with - | ⟨s1, r1⟩
    · rfl
    rcases hr1 : r1 with - | ⟨s2, r2⟩
    · rfl
    rcases hr2 : r2 with - | ⟨s3, r3⟩
    · rfl
    subst hr hr1 hr2
    simp only [List.length_cons, List.getD_cons_zero, List.getD_cons_succ] at h
    have hcase : parseF32 s1 = none ∨ parseF32 s2 = none ∨ parseF32 s3 = none := by
      rcases Bool.or_eq_true_iff.mp h with h' | h'
      · rcases Bool.or_eq_true_iff.mp h' with h'' | h''
        · rcases Bool.or_eq_true_iff.mp h'' with h3 | h3
          · exact absurd (of_decide_eq_true h3) (by omega)
          · exact Or.inl (Option.isNone_iff_eq_none.mp h3)
        · exact Or.inr (Or.inl (Option.isNone_iff_eq_none.mp h''))
      · exact Or.inr (Or.inr (Option.isNone_iff_eq_none.mp h'))
    rcases hcase with hn | hn | hn <;> simp [hn]
  · rw [if_neg hv] at h ⊢
    by_cases hf : w = ['f']
    · rw [if_pos hf] at h ⊢
      obtain ⟨word, hmem, hword⟩ := List.any_eq_true.mp h
      rw [parseIndices_eq_none_of_mem rest word hmem (Option.isNone_iff_eq_none.mp hword)]
      rfl
    · rw [if_neg hf] at h
      simp at h

/-- A failing line anywhere in the list makes the whole fold fail. -/
lemma foldlM_loadLine_none :
    ∀ (lines : List (List Char)) (line : List Char), line ∈ lines →
      badLine line = true → ∀ st, lines.foldlM loadLine st = none := by
  intro lines
  induction lines with
  | nil => intro line h; cases h
  | cons l t ih =>
    intro line hmem hbad st
    rcases List.mem_cons.mp hmem with rfl | hmt
    · simp [List.foldlM_cons, loadLine_of_badLine line hbad st]
    · rcases hl : loadLine st l with - | st'
      · simp [List.foldlM_cons, hl]
      · simp only [List.foldlM_cons, hl, Option.bind_some]
        exact ih line hmt hbad st'

/-- C2 (amended): a `v` line with a missing or non-numeric field, or an `f`
line with a non-numeric index field, fails the whole load (no partial mesh);
but an `f` line with fewer than three index tokens does not fail — it
produces a face whose missing indices are 0 (from `Face::new(0, 0, 0)`), as
`f 1 2` shows. -/
theorem load_from_file_parse_failures :
    (∀ (contents : String) (line : List Char),
        line ∈ rustLines contents.data → badLine line = true →
        loadFromFile contents = none) ∧
    (loadFromFile "f 1 2").map Mesh.faces = some [⟨1, 2, 0⟩] := by
  constructor
  · intro contents line hmem hbad
    rw [loadFromFile, foldlM_loadLine_none (rustLines contents.data) line hmem hbad]
    rfl
  · decide

/-- Witness for C2: a `v` line with a missing third coordinate and a `v`
line with a non-numeric field each abort the load. -/
theorem load_from_file_parse_failures_witness :
    loadFromFile "v 1.0 2.0" = none ∧ loadFromFile "v 1.0 abc 3.0" = none :=
  ⟨load_from_file_parse_failures.1 "v 1.0 2.0" "v 1.0 2.0".data
      (by decide) (by decide),
   load_from_file_parse_failures.1 "v 1.0 abc 3.0" "v 1.0 abc 3.0".data
      (by decide) (by decide)⟩

/-- Counterexample for C2 as stated: the two-token face line `f 1 2` does
not fail at load time — it yields a mesh with the partial face `{1, 2, 0}`. -/
theorem load_from_file_short_face_cex :
    loadFromFile "f 1 2" ≠ none ∧
    (loadFromFile "f 1 2").map Mesh.faces = some [⟨1, 2, 0⟩] := by
  constructor
  · decide
  · decide

/-! ## C1/C8: the `draw_line` loop walks the classic Bresenham pixel list

Write `a`, `b` for the major/minor spans and `v i = bresStep a b i`.  The
loop invariant is `err = a*(1 + v i) - b*(1 + i)` after `i` major-axis
steps; the lemmas below characterize the two step tests against `v`. -/

lemma bresStep_zero (a b : Nat) : bresStep a b 0 = 0 := by
  rw [bresStep]
  rcases Nat.eq_zero_or_pos a with ha | ha
  · subst ha; simp
  · simp only [Nat.mul_zero, Nat.zero_add]
    exact Nat.div_eq_of_lt (by omega)

lemma bresStep_last (a b : Nat) (ha : 0 < a) : bresStep a b a = b := by
  rw [bresStep]
  have hmul : 2 * b * a = 2 * a * b := by ring
  rw [hmul, Nat.mul_add_div (by omega), Nat.div_eq_of_lt (by omega)]
  rfl

lemma bresStep_bounds (a b i : Nat) (ha : 0 < a) :
    2 * a * bresStep a b i ≤ 2 * b * i + (a - 1) ∧
      2 * b * i + (a - 1) < 2 * a * bresStep a b i + 2 * a := by
  constructor
  · rw [bresStep, Nat.mul_comm (2 * a)]
    exact Nat.div_mul_le_self _ _
  · have h : ¬ ((2 * b * i + (a - 1)) / (2 * a) + 1 ≤ (2 * b * i + (a - 1)) / (2 * a)) :=
      Nat.not_succ_le_self _
    rw [Nat.le_div_iff_mul_le (by omega : 0 < 2 * a)] at h
    have h' := Nat.lt_of_not_le h
    have hid : ((2 * b * i + (a - 1)) / (2 * a) + 1) * (2 * a) =
        2 * a * ((2 * b * i + (a - 1)) / (2 * a)) + 2 * a := by ring
    rw [hid] at h'
    rw [bresStep]
    exact h'

lemma bresStep_succ_cases (a b i : Nat) (hba : b ≤ a) :
    bresStep a b (i + 1) = bresStep a b i ∨
      bresStep a b (i + 1) = bresStep a b i + 1 := by
  rcases Nat.eq_zero_or_pos a with ha | ha
  · left
    have hb : b = 0 := by omega
    subst ha hb
    simp [bresStep]
  have hmul : 2 * b * (i + 1) = 2 * b * i + 2 * b := by ring
  have h1 : bresStep a b i ≤ bresStep a b (i + 1) := by
    rw [bresStep, bresStep, hmul]
    exact Nat.div_le_div_right (by omega)
  have h2 : bresStep a b (i + 1) ≤ bresStep a b i + 1 := by
    rw [bresStep, bresStep, hmul]
    calc (2 * b * i + 2 * b + (a - 1)) / (2 * a)
        ≤ (2 * b * i + (a - 1) + 2 * a) / (2 * a) := Nat.div_le_div_right (by omega)
      _ = (2 * b * i + (a - 1)) / (2 * a) + 1 := Nat.add_div_right _ (by omega)
  omega

lemma bresStep_xstep (a b i : Nat) (ha : 0 < a) (hba : b ≤ a) :
    2 * ((a : Int) * (1 + (bresStep a b i : Int)) - (b : Int) * (1 + (i : Int)))
      > -(b : Int) := by
  have h1a : 1 ≤ a := ha
  rcases Nat.lt_or_ge b a with hlt | hge
  · obtain ⟨-, h2⟩ := bresStep_bounds a b i ha
    zify [h1a] at h2
    have hb' : (b : Int) < a := by exact_mod_cast hlt
    linarith
  · have hb : b = a := le_antisymm hba hge
    subst hb
    have hv : bresStep b b i = i := by
      rw [bresStep, Nat.mul_add_div (by omega), Nat.div_eq_of_lt (by omega)]
      rfl
    rw [hv]
    have hb' : (0 : Int) < b := by exact_mod_cast ha
    linarith

lemma bresStep_ystep (a b i : Nat) (ha : 0 < a) (hba : b ≤ a) :
    (2 * ((a : Int) * (1 + (bresStep a b i : Int)) - (b : Int) * (1 + (i : Int)))
        < (a : Int))
      ↔ bresStep a b (i + 1) = bresStep a b i + 1 := by
  have h1a : 1 ≤ a := ha
  obtain ⟨hlo, hhi⟩ := bresStep_bounds a b i ha
  obtain ⟨hlo', hhi'⟩ := bresStep_bounds a b (i + 1) ha
  have hmul : 2 * b * (i + 1) = 2 * b * i + 2 * b := by ring
  rw [hmul] at hlo' hhi'
  zify [h1a] at hlo hhi hlo' hhi'
  constructor
  · intro hc
    rcases bresStep_succ_cases a b i hba with he | he
    · exfalso
      rw [he] at hhi'
      linarith
    · exact he
  · intro he
    rw [he] at hlo'
    push_cast at hlo'
    linarith

/-- Splitting off the head of a shifted `range`-map. -/
lemma range_map_shift {α : Type} (f : Nat → α) (i k : Nat) :
    (List.range (k + 1 + 1)).map (fun j => f (i + j)) =
      f (i + 0) :: (List.range (k + 1)).map (fun j => f (i + 1 + j)) := by
  rw [List.range_succ_eq_map, List.map_cons, List.map_map]
  congr 1
  refine List.map_congr_left fun j hj => ?_
  show f (i + (j + 1)) = f (i + 1 + j)
  congr 1
  omega

/-- The ideal loop, started at the invariant state after `i` of `a`
major-axis steps (with `b ≤ a`), walks exactly the remaining
classic-Bresenham pixels.  Any fuel exceeding the remaining step count
works. -/
lemma flat_run (x0 y0 sx sy : Int) (a b : Nat) (ha : 0 < a) (hba : b ≤ a)
    (hsx : sx = 1 ∨ sx = -1) :
    ∀ (k i fuel : Nat), i + k = a → k < fuel →
      lineLoopPtsIdeal fuel (x0 + sx * (i : Int)) (y0 + sy * (bresStep a b i : Int))
          (x0 + sx * (a : Int)) (y0 + sy * (b : Int)) (a : Int) (-(b : Int)) sx sy
          ((a : Int) * (1 + (bresStep a b i : Int)) - (b : Int) * (1 + (i : Int)))
        = (List.range (k + 1)).map fun j : Nat => bresPix x0 y0 sx sy a b (i + j) := by
  intro k
  induction k with
  | zero =>
    intro i fuel hia hfuel
    obtain ⟨f, rfl⟩ : ∃ f, fuel = f + 1 := ⟨fuel - 1, by omega⟩
    have hia' : i = a := by omega
    subst hia'
    simp only [lineLoopPtsIdeal]
    rw [if_pos ⟨trivial, by rw [bresStep_last _ _ ha]⟩]
    simp [List.range_succ, bresPix, bresStep_last _ _ ha]
  | succ k ih =>
    intro i fuel hia hfuel
    obtain ⟨f, rfl⟩ : ∃ f, fuel = f + 1 := ⟨fuel - 1, by omega⟩
    have hia' : i < a := by omega
    have hne : ¬ (x0 + sx * (i : Int) = x0 + sx * (a : Int) ∧
        y0 + sy * (bresStep a b i : Int) = y0 + sy * (b : Int)) := by
      rintro ⟨hx, -⟩
      have hxx : sx * (i : Int) = sx * (a : Int) := by linarith
      rcases hsx with rfl | rfl <;> omega
    simp only [lineLoopPtsIdeal]
    rw [if_neg hne]
    have hx := bresStep_xstep a b i ha hba
    simp only [if_pos hx]
    rw [range_map_shift (bresPix x0 y0 sx sy a b) i k]
    have hhead : bresPix x0 y0 sx sy a b (i + 0) =
        (x0 + sx * (i : Int), y0 + sy * (bresStep a b i : Int)) := by
      rw [Nat.add_zero, bresPix]
    rw [hhead]
    refine congrArg (List.cons _) ?_
    have harg1 : x0 + sx * (i : Int) + sx = x0 + sx * (Nat.cast (i + 1) : Int) := by
      push_cast; ring
    rcases bresStep_succ_cases a b i hba with hv | hv
    · have hyc : ¬ (2 * ((a : Int) * (1 + (bresStep a b i : Int)) -
          (b : Int) * (1 + (i : Int))) < (a : Int)) := by
        intro hc
        have := (bresStep_ystep a b i ha hba).mp hc
        omega
      simp only [if_neg hyc]
      have harg2 : y0 + sy * (bresStep a b i : Int) =
          y0 + sy * (bresStep a b (i + 1) : Int) := by rw [hv]
      have harg3 : (a : Int) * (1 + (bresStep a b i : Int)) -
            (b : Int) * (1 + (i : Int)) + -(b : Int) + 0 =
          (a : Int) * (1 + (bresStep a b (i + 1) : Int)) -
            (b : Int) * (1 + (Nat.cast (i + 1) : Int)) := by
        rw [hv]; push_cast; ring
      rw [harg1, harg3, harg2]
      exact ih (i + 1) f (by omega) (by omega)
    · have hyc := (bresStep_ystep a b i ha hba).mpr hv
      simp only [if_pos hyc]
      have harg2 : y0 + sy * (bresStep a b i : Int) + sy =
          y0 + sy * (bresStep a b (i + 1) : Int) := by
        rw [hv]; push_cast; ring
      have harg3 : (a : Int) * (1 + (bresStep a b i : Int)) -
            (b : Int) * (1 + (i : Int)) + -(b : Int) + (a : Int) =
          (a : Int) * (1 + (bresStep a b (i + 1) : Int)) -
            (b : Int) * (1 + (Nat.cast (i + 1) : Int)) := by
        rw [hv]; push_cast; ring
      rw [harg1, harg2, harg3]
      exact ih (i + 1) f (by omega) (by omega)

/-- Swapping the roles of the axes (and negating `err`) mirrors the ideal
loop: the `x`-test `2*err > dy` of one run is the `y`-test `2*(-err) < -dy`
of the other and vice versa.  (True of the ideal loop only: `wrap32` does
not commute with negation at `-2^31`.) -/
lemma lineLoopPtsIdeal_swap :
    ∀ (fuel : Nat) (x0 y0 x1 y1 dx dy sx sy err : Int),
      lineLoopPtsIdeal fuel x0 y0 x1 y1 dx dy sx sy err =
        (lineLoopPtsIdeal fuel y0 x0 y1 x1 (-dy) (-dx) sy sx (-err)).map Prod.swap := by
  intro fuel
  induction fuel with
  | zero => intro x0 y0 x1 y1 dx dy sx sy err; rfl
  | succ f ih =>
    intro x0 y0 x1 y1 dx dy sx sy err
    simp only [lineLoopPtsIdeal]
    by_cases hb : x0 = x1 ∧ y0 = y1
    · rw [if_pos hb, if_pos ⟨hb.2, hb.1⟩]
      rfl
    · have hb' : ¬ (y0 = y1 ∧ x0 = x1) := fun h => hb ⟨h.2, h.1⟩
      rw [if_neg hb, if_neg hb', List.map_cons]
      refine congrArg₂ _ rfl ?_
      rw [ih]
      by_cases h1 : 2 * err > dy <;> by_cases h2 : 2 * err < dx
      · simp only [if_pos h1, if_pos h2, if_pos (by omega : 2 * -err > -dx),
          if_pos (by omega : 2 * -err < -dy)]
        refine congrArg _ ?_
        congr 1
        ring
      · simp only [if_pos h1, if_neg h2, if_neg (by omega : ¬ 2 * -err > -dx),
          if_pos (by omega : 2 * -err < -dy)]
        refine congrArg _ ?_
        congr 1
        ring
      · simp only [if_neg h1, if_pos h2, if_pos (by omega : 2 * -err > -dx),
          if_neg (by omega : ¬ 2 * -err < -dy)]
        refine congrArg _ ?_
        congr 1
        ring
      · simp only [if_neg h1, if_neg h2, if_neg (by omega : ¬ 2 * -err > -dx),
          if_neg (by omega : ¬ 2 * -err < -dy)]
        refine congrArg _ ?_
        congr 1
        ring

/-- Started from `draw_line`'s ideal initial state, the ideal loop produces
exactly the classic Bresenham pixel list, for any fuel exceeding the major
span. -/
lemma lineLoopPtsIdeal_start_eq_ref (x0 y0 x1 y1 : Int) (fuel : Nat)
    (hfuel : max (x1 - x0).natAbs (y1 - y0).natAbs < fuel) :
    lineLoopPtsIdeal fuel x0 y0 x1 y1 |x1 - x0| (-|y1 - y0|)
        (if x0 < x1 then 1 else -1) (if y0 < y1 then 1 else -1)
        (|x1 - x0| + -|y1 - y0|) = bresenhamRef x0 y0 x1 y1 := by
  simp only [bresenhamRef]
  set a := (x1 - x0).natAbs with hadef
  set b := (y1 - y0).natAbs with hbdef
  set sx : Int := if x0 < x1 then (1 : Int) else -1 with hsxdef
  set sy : Int := if y0 < y1 then (1 : Int) else -1 with hsydef
  have habs : |x1 - x0| = (a : Int) := by rw [hadef]; exact Int.abs_eq_natAbs _
  have hbabs : |y1 - y0| = (b : Int) := by rw [hbdef]; exact Int.abs_eq_natAbs _
  rw [habs, hbabs]
  have hsx : sx = 1 ∨ sx = -1 := by rw [hsxdef]; split <;> simp
  have hsy : sy = 1 ∨ sy = -1 := by rw [hsydef]; split <;> simp
  have hx1 : x1 = x0 + sx * (a : Int) := by
    rw [hsxdef, hadef]; split <;> omega
  have hy1 : y1 = y0 + sy * (b : Int) := by
    rw [hsydef, hbdef]; split <;> omega
  by_cases hba : b ≤ a
  · rw [if_pos hba]
    rcases Nat.eq_zero_or_pos a with ha0 | ha
    · have hb0 : b = 0 := by omega
      have hxx : x1 = x0 := by omega
      have hyy : y1 = y0 := by omega
      subst hxx hyy
      obtain ⟨f, rfl⟩ : ∃ f, fuel = f + 1 := ⟨fuel - 1, by omega⟩
      simp [lineLoopPtsIdeal, ha0, hb0, List.range_succ, bresPix, bresStep_zero]
    · have h := flat_run x0 y0 sx sy a b ha hba hsx a 0 fuel (by omega) (by omega)
      rw [bresStep_zero] at h
      simp only [Nat.cast_zero, mul_zero, add_zero, Nat.zero_add, mul_one] at h
      rw [sub_eq_add_neg] at h
      rw [hx1, hy1]
      exact h
  · rw [if_neg hba]
    have hb : 0 < b := by omega
    have hab : a ≤ b := by omega
    rw [hx1, hy1, lineLoopPtsIdeal_swap, neg_neg,
      show -((a : Int) + -(b : Int)) = (b : Int) + -(a : Int) by ring]
    have h := flat_run y0 x0 sy sx b a hb hab hsy b 0 fuel (by omega) (by omega)
    rw [bresStep_zero] at h
    simp only [Nat.cast_zero, mul_zero, add_zero, Nat.zero_add, mul_one] at h
    rw [sub_eq_add_neg] at h
    rw [h, List.map_map]
    rfl

/-- `wrap32` is the identity on the `i32` range. -/
lemma wrap32_eq_self {z : Int} (h1 : -(2 ^ 31) ≤ z) (h2 : z < 2 ^ 31) :
    wrap32 z = z := by
  rw [wrap32]
  omega

/-- While no `i32` operation can overflow, the wrapping loop agrees with
the ideal loop.  Spans below `2^29` keep `err` inside `[2*dy, 2*dx]` (an
invariant closed under the loop's updates) and hence `e2 = 2*err` and both
`err` accumulations inside `i32`; the fuel bounds how far the coordinates
can drift from their starting points, keeping the coordinate steps inside
`i32` as well. -/
lemma lineLoopPts_eq_ideal :
    ∀ (fuel : Nat) (x0 y0 x1 y1 dx dy sx sy err : Int),
      0 ≤ dx → dx < 2 ^ 29 → -(2 ^ 29) < dy → dy ≤ 0 →
      2 * dy ≤ err → err ≤ 2 * dx →
      (sx = 1 ∨ sx = -1) → (sy = 1 ∨ sy = -1) →
      -(2 ^ 31) + (fuel : Int) ≤ x0 → x0 ≤ 2 ^ 31 - 1 - (fuel : Int) →
      -(2 ^ 31) + (fuel : Int) ≤ y0 → y0 ≤ 2 ^ 31 - 1 - (fuel : Int) →
      lineLoopPts fuel x0 y0 x1 y1 dx dy sx sy err =
        lineLoopPtsIdeal fuel x0 y0 x1 y1 dx dy sx sy err := by
  intro fuel
  induction fuel with
  | zero =>
    intro x0 y0 x1 y1 dx dy sx sy err _ _ _ _ _ _ _ _ _ _ _ _
    rfl
  | succ f ih =>
    intro x0 y0 x1 y1 dx dy sx sy err hdx0 hdxhi hdylo hdy0 herrlo herrhi hsx hsy
      hx0lo hx0hi hy0lo hy0hi
    have hsxb : -1 ≤ sx ∧ sx ≤ 1 := by rcases hsx with rfl | rfl <;> constructor <;> norm_num
    have hsyb : -1 ≤ sy ∧ sy ≤ 1 := by rcases hsy with rfl | rfl <;> constructor <;> norm_num
    simp only [lineLoopPts, lineLoopPtsIdeal]
    by_cases hb : x0 = x1 ∧ y0 = y1
    · rw [if_pos hb, if_pos hb]
    · rw [if_neg hb, if_neg hb]
      have he2 : wrap32 (2 * err) = 2 * err := wrap32_eq_self (by omega) (by omega)
      rw [he2]
      have hxs : wrap32 (x0 + sx) = x0 + sx := wrap32_eq_self (by omega) (by omega)
      have hys : wrap32 (y0 + sy) = y0 + sy := wrap32_eq_self (by omega) (by omega)
      have herr1 : wrap32 (err + dy) = err + dy := wrap32_eq_self (by omega) (by omega)
      refine congrArg (List.cons _) ?_
      by_cases h1 : 2 * err > dy <;> by_cases h2 : 2 * err < dx
      · simp only [if_pos h1, if_pos h2]
        rw [hxs, hys, herr1]
        rw [wrap32_eq_self (show -(2 ^ 31) ≤ err + dy + dx by omega)
          (show err + dy + dx < 2 ^ 31 by omega)]
        exact ih _ _ _ _ _ _ _ _ _ hdx0 hdxhi hdylo hdy0 (by omega) (by omega)
          hsx hsy (by omega) (by omega) (by omega) (by omega)
      · simp only [if_pos h1, if_neg h2, add_zero]
        rw [hxs, herr1]
        exact ih _ _ _ _ _ _ _ _ _ hdx0 hdxhi hdylo hdy0 (by omega) (by omega)
          hsx hsy (by omega) (by omega) (by omega) (by omega)
      · simp only [if_neg h1, if_pos h2]
        rw [hys]
        rw [wrap32_eq_self (show -(2 ^ 31) ≤ err + dx by omega)
          (show err + dx < 2 ^ 31 by omega)]
        exact ih _ _ _ _ _ _ _ _ _ hdx0 hdxhi hdylo hdy0 (by omega) (by omega)
          hsx hsy (by omega) (by omega) (by omega) (by omega)
      · simp only [if_neg h1, if_neg h2, add_zero]
        exact ih _ _ _ _ _ _ _ _ _ hdx0 hdxhi hdylo hdy0 herrlo herrhi
          hsx hsy (by omega) (by omega) (by omega) (by omega)

/-- One unfolding of the wrapping loop trace. -/
lemma lineLoopPts_succ (f : Nat) (x0 y0 x1 y1 dx dy sx sy err : Int) :
    lineLoopPts (f + 1) x0 y0 x1 y1 dx dy sx sy err =
      if x0 = x1 ∧ y0 = y1 then [(x0, y0)]
      else
        (x0, y0) ::
          lineLoopPts f
            (if wrap32 (2 * err) > dy then wrap32 (x0 + sx) else x0)
            (if wrap32 (2 * err) < dx then wrap32 (y0 + sy) else y0)
            x1 y1 dx dy sx sy
            (if wrap32 (2 * err) < dx
              then wrap32 ((if wrap32 (2 * err) > dy then wrap32 (err + dy) else err) + dx)
              else if wrap32 (2 * err) > dy then wrap32 (err + dy) else err) := rfl

/-- Once one extra unit of fuel no longer changes the wrapping trace, the
loop has broken: every larger fuel produces the same trace. -/
lemma lineLoopPts_stable :
    ∀ (f : Nat) (x0 y0 x1 y1 dx dy sx sy err : Int),
      lineLoopPts (f + 1) x0 y0 x1 y1 dx dy sx sy err =
        lineLoopPts f x0 y0 x1 y1 dx dy sx sy err →
      ∀ g : Nat, f ≤ g →
        lineLoopPts g x0 y0 x1 y1 dx dy sx sy err =
          lineLoopPts f x0 y0 x1 y1 dx dy sx sy err := by
  intro f
  induction f with
  | zero =>
    intro x0 y0 x1 y1 dx dy sx sy err h g hg
    exfalso
    rw [lineLoopPts_succ] at h
    split at h <;> simp [lineLoopPts] at h
  | succ f ih =>
    intro x0 y0 x1 y1 dx dy sx sy err h g hg
    obtain ⟨g1, rfl⟩ : ∃ g1, g = g1 + 1 := ⟨g - 1, by omega⟩
    by_cases hb : x0 = x1 ∧ y0 = y1
    · rw [lineLoopPts_succ, if_pos hb, lineLoopPts_succ, if_pos hb]
    · rw [lineLoopPts_succ, if_neg hb, lineLoopPts_succ, if_neg hb]
      refine congrArg (List.cons _) ?_
      have htails := congrArg List.tail h
      conv at htails => lhs; rw [lineLoopPts_succ, if_neg hb, List.tail_cons]
      conv at htails => rhs; rw [lineLoopPts_succ, if_neg hb, List.tail_cons]
      exact ih _ _ _ _ _ _ _ _ _ htails g1 (by omega)

/-- For endpoints below `2^28` in magnitude, none of `draw_line`'s setup
operations (`i32` subtraction, absolute value, negation, addition) wraps:
the wrapped setup values equal their ideal values. -/
lemma drawLine_setup_small (x0 y0 x1 y1 : Int)
    (hx0 : x0.natAbs < 2 ^ 28) (hy0 : y0.natAbs < 2 ^ 28)
    (hx1 : x1.natAbs < 2 ^ 28) (hy1 : y1.natAbs < 2 ^ 28) :
    wrap32 |wrap32 (x1 - x0)| = |x1 - x0| ∧
      wrap32 (-(wrap32 |wrap32 (y1 - y0)|)) = -|y1 - y0| ∧
      wrap32 (wrap32 |wrap32 (x1 - x0)| + wrap32 (-(wrap32 |wrap32 (y1 - y0)|))) =
        |x1 - x0| + -|y1 - y0| := by
  have habs : |x1 - x0| = ((x1 - x0).natAbs : Int) := Int.abs_eq_natAbs _
  have hbabs : |y1 - y0| = ((y1 - y0).natAbs : Int) := Int.abs_eq_natAbs _
  have h1 : wrap32 (x1 - x0) = x1 - x0 := wrap32_eq_self (by omega) (by omega)
  have h2 : wrap32 (y1 - y0) = y1 - y0 := wrap32_eq_self (by omega) (by omega)
  rw [h1, h2]
  have h3 : wrap32 |x1 - x0| = |x1 - x0| :=
    wrap32_eq_self (by rw [habs]; omega) (by rw [habs]; omega)
  have h4 : wrap32 |y1 - y0| = |y1 - y0| :=
    wrap32_eq_self (by rw [hbabs]; omega) (by rw [hbabs]; omega)
  rw [h3, h4]
  have h5 : wrap32 (-|y1 - y0|) = -|y1 - y0| :=
    wrap32_eq_self (by rw [hbabs]; omega) (by rw [hbabs]; omega)
  rw [h5]
  exact ⟨rfl, rfl,
    wrap32_eq_self (by rw [habs, hbabs]; omega) (by rw [habs, hbabs]; omega)⟩

/-- With all four endpoint coordinates below `2^28` in magnitude, no `i32`
operation in the loop overflows: started from `draw_line`'s (ideal-valued)
initial state, the wrapping loop trace is the classic Bresenham pixel list,
for every sufficient fuel up to `2^30`. -/
lemma lineLoopPts_small_eq_ref (x0 y0 x1 y1 : Int)
    (hx0 : x0.natAbs < 2 ^ 28) (hy0 : y0.natAbs < 2 ^ 28)
    (hx1 : x1.natAbs < 2 ^ 28) (hy1 : y1.natAbs < 2 ^ 28) (fuel : Nat)
    (hfuel : max (x1 - x0).natAbs (y1 - y0).natAbs < fuel) (hfhi : fuel ≤ 2 ^ 30) :
    lineLoopPts fuel x0 y0 x1 y1 |x1 - x0| (-|y1 - y0|)
        (if x0 < x1 then 1 else -1) (if y0 < y1 then 1 else -1)
        (|x1 - x0| + -|y1 - y0|) = bresenhamRef x0 y0 x1 y1 := by
  have habs : |x1 - x0| = ((x1 - x0).natAbs : Int) := Int.abs_eq_natAbs _
  have hbabs : |y1 - y0| = ((y1 - y0).natAbs : Int) := Int.abs_eq_natAbs _
  refine (lineLoopPts_eq_ideal fuel x0 y0 x1 y1 |x1 - x0| (-|y1 - y0|)
      (if x0 < x1 then 1 else -1) (if y0 < y1 then 1 else -1)
      (|x1 - x0| + -|y1 - y0|) (abs_nonneg _)
      (by rw [habs]; omega) (by rw [hbabs]; omega) (by rw [hbabs]; omega)
      (by rw [habs, hbabs]; omega) (by rw [habs, hbabs]; omega)
      (by split <;> simp) (by split <;> simp)
      (by omega) (by omega) (by omega) (by omega)).trans
    (lineLoopPtsIdeal_start_eq_ref x0 y0 x1 y1 fuel hfuel)

/-- `linePts` equals the classic Bresenham reference for endpoints below
`2^28` in magnitude. -/
lemma linePts_small_eq_ref (x0 y0 x1 y1 : Int)
    (hx0 : x0.natAbs < 2 ^ 28) (hy0 : y0.natAbs < 2 ^ 28)
    (hx1 : x1.natAbs < 2 ^ 28) (hy1 : y1.natAbs < 2 ^ 28) :
    linePts x0 y0 x1 y1 = bresenhamRef x0 y0 x1 y1 := by
  obtain ⟨h1, h2, h3⟩ := drawLine_setup_small x0 y0 x1 y1 hx0 hy0 hx1 hy1
  rw [linePts, h3, h1, h2]
  exact lineLoopPts_small_eq_ref x0 y0 x1 y1 hx0 hy0 hx1 hy1 _ (by omega) (by omega)

/-- On the overflowing input `(0,0) → (2^30,0)` the loop is stuck at
`x0 = 0`.  The setup gives `dx = 2^30`, `dy = 0`, `err = 2^30`; the first
doubling `2*err = 2^31` overflows `i32` and wraps to `-2^31`, and from then
on `e2 = wrap32 (2*err)` only ever takes the values `-2^31` and `0`: the
test `e2 > dy` never fires, so `x0` stays `0`; the test `e2 < dx` always
fires, so `y0` decrements forever and `err` cycles through
`2^30, -2^31, -2^30, 0`.  Every traced pixel has `x`-coordinate `0`, and
the break `(x0, y0) = (x1, y1)` never fires (its `x` side is `0 = 2^30`):
the trace length always equals the fuel. -/
lemma lineLoopPts_overflow_stuck :
    ∀ (fuel : Nat) (y0 err : Int),
      err = 2 ^ 30 ∨ err = -(2 ^ 31) ∨ err = -(2 ^ 30) ∨ err = 0 →
      (∀ p ∈ lineLoopPts fuel 0 y0 (2 ^ 30) 0 (2 ^ 30) 0 1 (-1) err, p.1 = 0) ∧
        (lineLoopPts fuel 0 y0 (2 ^ 30) 0 (2 ^ 30) 0 1 (-1) err).length = fuel := by
  intro fuel
  induction fuel with
  | zero =>
    intro y0 err herr
    exact ⟨fun p hp => absurd hp (List.not_mem_nil p), rfl⟩
  | succ f ih =>
    intro y0 err herr
    have hbreak : ¬ ((0 : Int) = 2 ^ 30 ∧ y0 = (0 : Int)) := by
      rintro ⟨hc, -⟩
      norm_num at hc
    rw [lineLoopPts_succ, if_neg hbreak]
    rcases herr with rfl | rfl | rfl | rfl
    · have hc1 : ¬ (wrap32 (2 * 2 ^ 30) > (0 : Int)) := by decide
      have hc2 : wrap32 (2 * 2 ^ 30) < (2 : Int) ^ 30 := by decide
      simp only [if_neg hc1, if_pos hc2]
      rw [show wrap32 ((2 : Int) ^ 30 + 2 ^ 30) = -(2 ^ 31) from by decide]
      obtain ⟨ihm, ihl⟩ := ih (wrap32 (y0 + -1)) (-(2 ^ 31)) (Or.inr (Or.inl rfl))
      refine ⟨fun p hp => ?_, by simp only [List.length_cons, ihl]⟩
      rcases List.mem_cons.mp hp with rfl | hp'
      · rfl
      · exact ihm p hp'
    · have hc1 : ¬ (wrap32 (2 * -(2 ^ 31)) > (0 : Int)) := by decide
      have hc2 : wrap32 (2 * -(2 ^ 31)) < (2 : Int) ^ 30 := by decide
      simp only [if_neg hc1, if_pos hc2]
      rw [show wrap32 (-((2 : Int) ^ 31) + 2 ^ 30) = -(2 ^ 30) from by decide]
      obtain ⟨ihm, ihl⟩ := ih (wrap32 (y0 + -1)) (-(2 ^ 30)) (Or.inr (Or.inr (Or.inl rfl)))
      refine ⟨fun p hp => ?_, by simp only [List.length_cons, ihl]⟩
      rcases List.mem_cons.mp hp with rfl | hp'
      · rfl
      · exact ihm p hp'
    · have hc1 : ¬ (wrap32 (2 * -(2 ^ 30)) > (0 : Int)) := by decide
      have hc2 : wrap32 (2 * -(2 ^ 30)) < (2 : Int) ^ 30 := by decide
      simp only [if_neg hc1, if_pos hc2]
      rw [show wrap32 (-((2 : Int) ^ 30) + 2 ^ 30) = 0 from by decide]
      obtain ⟨ihm, ihl⟩ := ih (wrap32 (y0 + -1)) 0 (Or.inr (Or.inr (Or.inr rfl)))
      refine ⟨fun p hp => ?_, by simp only [List.length_cons, ihl]⟩
      rcases List.mem_cons.mp hp with rfl | hp'
      · rfl
      · exact ihm p hp'
    · have hc1 : ¬ (wrap32 (2 * 0) > (0 : Int)) := by decide
      have hc2 : wrap32 (2 * 0) < (2 : Int) ^ 30 := by decide
      simp only [if_neg hc1, if_pos hc2]
      rw [show wrap32 ((0 : Int) + 2 ^ 30) = 2 ^ 30 from by decide]
      obtain ⟨ihm, ihl⟩ := ih (wrap32 (y0 + -1)) (2 ^ 30) (Or.inl rfl)
      refine ⟨fun p hp => ?_, by simp only [List.length_cons, ihl]⟩
      rcases List.mem_cons.mp hp with rfl | hp'
      · rfl
      · exact ihm p hp'

/-- The buffer produced by the loop is the fold of `drawPixel` over the
pixel trace. -/
lemma drawLineLoop_eq_foldl :
    ∀ (fuel : Nat) (buf : List Nat) (x0 y0 x1 y1 dx dy sx sy err : Int) (c : Color),
      drawLineLoop fuel buf x0 y0 x1 y1 dx dy sx sy err c =
        (lineLoopPts fuel x0 y0 x1 y1 dx dy sx sy err).foldl
          (fun bf p => drawPixel bf (toU32 p.1) (toU32 p.2) c) buf := by
  intro fuel
  induction fuel with
  | zero => intro buf x0 y0 x1 y1 dx dy sx sy err c; rfl
  | succ f ih =>
    intro buf x0 y0 x1 y1 dx dy sx sy err c
    simp only [drawLineLoop, lineLoopPts]
    by_cases hb : x0 = x1 ∧ y0 = y1
    · rw [if_pos hb, if_pos hb]
      rfl
    · rw [if_neg hb, if_neg hb, List.foldl_cons]
      exact ih _ _ _ _ _ _ _ _ _ _ _

/-- `draw_pixel` never changes the buffer length. -/
lemma drawPixel_length (buf : List Nat) (x y : Nat) (c : Color) :
    (drawPixel buf x y c).length = buf.length := by
  rw [drawPixel]
  split
  · rfl
  · simp

/-- Reading any byte after an in-range `draw_pixel` (on a buffer shorter
than `2^32`): the three written offsets hold the color, the rest is the old
buffer. -/
lemma drawPixel_getElem (buf : List Nat) (x y : Nat) (c : Color)
    (hlen : buf.length < u32Mod) (hx : x < WINDOW_WIDTH)
    (hy : y < buf.length / (WINDOW_WIDTH * 3)) (j : Nat) :
    (drawPixel buf x y c)[j]? =
      if j = (y * WINDOW_WIDTH + x) * 3 then some c.r
      else if j = (y * WINDOW_WIDTH + x) * 3 + 1 then some c.g
      else if j = (y * WINDOW_WIDTH + x) * 3 + 2 then some c.b
      else buf[j]? := by
  have hmod : buf.length % u32Mod = buf.length := Nat.mod_eq_of_lt hlen
  have hbound : (y + 1) * (WINDOW_WIDTH * 3) ≤ buf.length := by
    rw [← Nat.le_div_iff_mul_le (by norm_num [WINDOW_WIDTH])]
    omega
  have hofs : (y * WINDOW_WIDTH + x) * 3 + 2 < buf.length := by
    have hW : WINDOW_WIDTH = 800 := rfl
    rw [hW] at hbound hx ⊢
    omega
  rw [drawPixel, if_neg (by rw [hmod]; omega)]
  by_cases h1 : j = (y * WINDOW_WIDTH + x) * 3
  · rw [if_pos h1, List.getElem?_set_ne (by omega), List.getElem?_set_ne (by omega),
      h1, List.getElem?_set_self (by omega)]
  by_cases h2 : j = (y * WINDOW_WIDTH + x) * 3 + 1
  · rw [if_neg h1, if_pos h2, List.getElem?_set_ne (by omega), h2,
      List.getElem?_set_self (by simp only [List.length_set]; omega)]
  by_cases h3 : j = (y * WINDOW_WIDTH + x) * 3 + 2
  · rw [if_neg h1, if_neg h2, if_pos h3, h3,
      List.getElem?_set_self (by simp only [List.length_set]; omega)]
  · rw [if_neg h1, if_neg h2, if_neg h3, List.getElem?_set_ne (by omega),
      List.getElem?_set_ne (by omega), List.getElem?_set_ne (by omega)]

/-- C1 (amended): for every pair of endpoints whose coordinates all have
magnitude below `2^28` — so that no `i32` operation in the algorithm
overflows — `draw_line` performs exactly the classic-Bresenham pixel
writes of `bresenhamRef`, in drawing order, in every octant; in
particular, on a standard-size buffer, `draw_line(buffer, 0,0,3,0, white)`
colors exactly the pixels `(0,0),(1,0),(2,0),(3,0)` — byte offsets 0
through 11 become 255 and every other byte is unchanged.  The unrestricted
form of the claim is refuted by `draw_line_classic_bresenham_cex`: at the
`i32`-valid endpoints `(0,0) → (2^30,0)` the doubling `2*err` overflows
`i32` and the loop never advances `x`. -/
theorem draw_line_classic_bresenham :
    (∀ (buf : List Nat) (x0 y0 x1 y1 : Int) (c : Color),
        x0.natAbs < 2 ^ 28 → y0.natAbs < 2 ^ 28 →
        x1.natAbs < 2 ^ 28 → y1.natAbs < 2 ^ 28 →
        drawLine buf x0 y0 x1 y1 c =
          (bresenhamRef x0 y0 x1 y1).foldl
            (fun bf p => drawPixel bf (toU32 p.1) (toU32 p.2) c) buf) ∧
    (∀ buf : List Nat, buf.length = WINDOW_WIDTH * WINDOW_HEIGHT * 3 →
      ∀ j : Nat, (drawLine buf 0 0 3 0 white)[j]? =
        if j < 12 then some 255 else buf[j]?) := by
  have hmain : ∀ (buf : List Nat) (x0 y0 x1 y1 : Int) (c : Color),
      x0.natAbs < 2 ^ 28 → y0.natAbs < 2 ^ 28 →
      x1.natAbs < 2 ^ 28 → y1.natAbs < 2 ^ 28 →
      drawLine buf x0 y0 x1 y1 c =
        (bresenhamRef x0 y0 x1 y1).foldl
          (fun bf p => drawPixel bf (toU32 p.1) (toU32 p.2) c) buf := by
    intro buf x0 y0 x1 y1 c hx0 hy0 hx1 hy1
    rw [drawLine, drawLineLoop_eq_foldl]
    rw [show lineLoopPts ((x1 - x0).natAbs + (y1 - y0).natAbs + 1) x0 y0 x1 y1
        (wrap32 |wrap32 (x1 - x0)|) (wrap32 (-(wrap32 |wrap32 (y1 - y0)|)))
        (if x0 < x1 then 1 else -1) (if y0 < y1 then 1 else -1)
        (wrap32 (wrap32 |wrap32 (x1 - x0)| + wrap32 (-(wrap32 |wrap32 (y1 - y0)|)))) =
        linePts x0 y0 x1 y1 from rfl]
    rw [linePts_small_eq_ref x0 y0 x1 y1 hx0 hy0 hx1 hy1]
  refine ⟨hmain, ?_⟩
  intro buf hlen j
  rw [hmain buf 0 0 3 0 white (by decide) (by decide) (by decide) (by decide)]
  have href : bresenhamRef 0 0 3 0 = [(0, 0), (1, 0), (2, 0), (3, 0)] := by decide
  rw [href]
  have hlen0 : buf.length = 1440000 := by
    rw [hlen]; norm_num [WINDOW_WIDTH, WINDOW_HEIGHT]
  simp only [List.foldl_cons, List.foldl_nil]
  rw [show toU32 0 = 0 from rfl, show toU32 1 = 1 from rfl,
    show toU32 2 = 2 from rfl, show toU32 3 = 3 from rfl]
  set q1 := drawPixel buf 0 0 white with hq1
  set q2 := drawPixel q1 1 0 white with hq2
  set q3 := drawPixel q2 2 0 white with hq3
  have hl1 : q1.length = 1440000 := by rw [hq1, drawPixel_length, hlen0]
  have hl2 : q2.length = 1440000 := by rw [hq2, drawPixel_length, hl1]
  have hl3 : q3.length = 1440000 := by rw [hq3, drawPixel_length, hl2]
  rw [drawPixel_getElem q3 3 0 white (by rw [hl3]; norm_num [u32Mod])
    (by norm_num [WINDOW_WIDTH]) (by rw [hl3]; norm_num [WINDOW_WIDTH])]
  rw [hq3, drawPixel_getElem q2 2 0 white (by rw [hl2]; norm_num [u32Mod])
    (by norm_num [WINDOW_WIDTH]) (by rw [hl2]; norm_num [WINDOW_WIDTH])]
  rw [hq2, drawPixel_getElem q1 1 0 white (by rw [hl1]; norm_num [u32Mod])
    (by norm_num [WINDOW_WIDTH]) (by rw [hl1]; norm_num [WINDOW_WIDTH])]
  rw [hq1, drawPixel_getElem buf 0 0 white (by rw [hlen0]; norm_num [u32Mod])
    (by norm_num [WINDOW_WIDTH]) (by rw [hlen0]; norm_num [WINDOW_WIDTH])]
  norm_num [WINDOW_WIDTH, white]
  by_cases hj : j < 12
  · rw [if_pos hj]
    interval_cases j <;> norm_num
  · rw [if_neg hj]
    rw [if_neg (show j ≠ 9 by omega), if_neg (show j ≠ 10 by omega),
      if_neg (show j ≠ 11 by omega), if_neg (show j ≠ 6 by omega),
      if_neg (show j ≠ 7 by omega), if_neg (show j ≠ 8 by omega),
      if_neg (show j ≠ 3 by omega), if_neg (show j ≠ 4 by omega),
      if_neg (show j ≠ 5 by omega), if_neg (show j ≠ 0 by omega),
      if_neg (show j ≠ 1 by omega), if_neg (show j ≠ 2 by omega)]

/-- Witness for C1: the octant-generic equation at `(1,2) → (-3,4)` (whose
coordinates are below `2^28`) and the horizontal-line byte check at index 5
on a fresh standard buffer. -/
theorem draw_line_classic_bresenham_witness :
    (1 : Int).natAbs < 2 ^ 28 ∧ (2 : Int).natAbs < 2 ^ 28 ∧
    (-3 : Int).natAbs < 2 ^ 28 ∧ (4 : Int).natAbs < 2 ^ 28 ∧
    drawLine [7, 7, 7] 1 2 (-3) 4 white =
      (bresenhamRef 1 2 (-3) 4).foldl
        (fun bf p => drawPixel bf (toU32 p.1) (toU32 p.2) white) [7, 7, 7] ∧
    (drawLine (List.replicate 1440000 9) 0 0 3 0 white)[5]? =
      if 5 < 12 then some 255 else (List.replicate 1440000 9)[5]? :=
  ⟨by decide, by decide, by decide, by decide,
   draw_line_classic_bresenham.1 [7, 7, 7] 1 2 (-3) 4 white
     (by decide) (by decide) (by decide) (by decide),
   draw_line_classic_bresenham.2 (List.replicate 1440000 9)
     (by rw [List.length_replicate]; norm_num [WINDOW_WIDTH, WINDOW_HEIGHT]) 5⟩

lemma bresenhamRef_flat (x0 y0 x1 y1 : Int)
    (hba : (y1 - y0).natAbs ≤ (x1 - x0).natAbs) :
    bresenhamRef x0 y0 x1 y1 =
      (List.range ((x1 - x0).natAbs + 1)).map
        (bresPix x0 y0 (if x0 < x1 then 1 else -1) (if y0 < y1 then 1 else -1)
          (x1 - x0).natAbs (y1 - y0).natAbs) := by
  simp only [bresenhamRef]
  rw [if_pos hba]

lemma bresenhamRef_steep (x0 y0 x1 y1 : Int)
    (hba : ¬ (y1 - y0).natAbs ≤ (x1 - x0).natAbs) :
    bresenhamRef x0 y0 x1 y1 =
      (List.range ((y1 - y0).natAbs + 1)).map fun j : Nat =>
        Prod.swap (bresPix y0 x0 (if y0 < y1 then 1 else -1) (if x0 < x1 then 1 else -1)
          (y1 - y0).natAbs (x1 - x0).natAbs j) := by
  simp only [bresenhamRef]
  rw [if_neg hba]

/-- Counterexample to C1 as stated: at the `i32`-valid endpoints
`(0,0) → (2^30,0)`, the first doubling `2*err = 2^31` overflows `i32`
(release builds wrap it to `-2^31`; debug builds panic), and thereafter
`e2` is never positive, so the `x` step never fires: every pixel the
source's loop ever visits has `x = 0`, while the classic Bresenham line
contains `(1,0)`.  So `draw_line` does not color the classic pixel set at
these endpoints (in fact the loop never terminates,
`draw_line_terminates_cex`). -/
theorem draw_line_classic_bresenham_cex :
    (∀ p ∈ linePts 0 0 (2 ^ 30) 0, p.1 = 0) ∧
      (1, 0) ∈ bresenhamRef 0 0 (2 ^ 30) 0 := by
  constructor
  · have hargs : linePts 0 0 (2 ^ 30) 0 =
        lineLoopPts (2 ^ 30 + 1) 0 0 (2 ^ 30) 0 (2 ^ 30) 0 1 (-1) (2 ^ 30) := by
      rw [linePts]
      congr 1
    rw [hargs]
    exact (lineLoopPts_overflow_stuck (2 ^ 30 + 1) 0 (2 ^ 30) (Or.inl rfl)).1
  · rw [bresenhamRef_flat 0 0 (2 ^ 30) 0 (by decide)]
    exact List.mem_map.mpr ⟨1, List.mem_range.mpr (by decide), by decide⟩

/-- C8 (amended): for endpoints below `2^28` in magnitude — where no `i32`
operation in the loop overflows — the `draw_line` loop terminates.  The
pixel trace is independent of any fuel beyond `max |dx| |dy|` extra
iterations (the loop breaks), has exactly `max |dx| |dy| + 1` entries,
starts at `(x0, y0)`, ends at `(x1, y1)`, and every step moves `x0` only
by the step sign `sx` toward `x1` and `y0` only by `sy` toward `y1`.  The
unrestricted form of the claim is refuted by `draw_line_terminates_cex`:
at `(0,0) → (2^30,0)` the wrapped `e2` is never positive, `x0` never
advances, `y0` steps away from `y1` forever and the loop never breaks. -/
theorem draw_line_terminates (x0 y0 x1 y1 : Int)
    (hx0 : x0.natAbs < 2 ^ 28) (hy0 : y0.natAbs < 2 ^ 28)
    (hx1 : x1.natAbs < 2 ^ 28) (hy1 : y1.natAbs < 2 ^ 28) :
    (∀ fuel : Nat, max (x1 - x0).natAbs (y1 - y0).natAbs < fuel →
        lineLoopPts fuel x0 y0 x1 y1 (wrap32 |wrap32 (x1 - x0)|)
          (wrap32 (-(wrap32 |wrap32 (y1 - y0)|)))
          (if x0 < x1 then 1 else -1) (if y0 < y1 then 1 else -1)
          (wrap32 (wrap32 |wrap32 (x1 - x0)| + wrap32 (-(wrap32 |wrap32 (y1 - y0)|)))) =
          linePts x0 y0 x1 y1) ∧
    (linePts x0 y0 x1 y1).length = max (x1 - x0).natAbs (y1 - y0).natAbs + 1 ∧
    (linePts x0 y0 x1 y1).head? = some (x0, y0) ∧
    (linePts x0 y0 x1 y1).getLast? = some (x1, y1) ∧
    List.Chain' (fun p q =>
        (q.1 = p.1 ∨ q.1 = p.1 + (if x0 < x1 then 1 else -1)) ∧
        (q.2 = p.2 ∨ q.2 = p.2 + (if y0 < y1 then 1 else -1)))
      (linePts x0 y0 x1 y1) := by
  have hlp : linePts x0 y0 x1 y1 = bresenhamRef x0 y0 x1 y1 :=
    linePts_small_eq_ref x0 y0 x1 y1 hx0 hy0 hx1 hy1
  refine ⟨?_, ?_, ?_, ?_, ?_⟩
  · intro fuel hf
    obtain ⟨h1, h2, h3⟩ := drawLine_setup_small x0 y0 x1 y1 hx0 hy0 hx1 hy1
    rw [h3, h1, h2]
    have hstab := lineLoopPts_stable (max (x1 - x0).natAbs (y1 - y0).natAbs + 1)
      x0 y0 x1 y1 |x1 - x0| (-|y1 - y0|)
      (if x0 < x1 then 1 else -1) (if y0 < y1 then 1 else -1)
      (|x1 - x0| + -|y1 - y0|)
      ((lineLoopPts_small_eq_ref x0 y0 x1 y1 hx0 hy0 hx1 hy1 _ (by omega)
          (by omega)).trans
        (lineLoopPts_small_eq_ref x0 y0 x1 y1 hx0 hy0 hx1 hy1 _ (by omega)
          (by omega)).symm)
    rw [hstab fuel (by omega), hlp]
    exact lineLoopPts_small_eq_ref x0 y0 x1 y1 hx0 hy0 hx1 hy1 _ (by omega) (by omega)
  · rw [hlp]
    by_cases hba : (y1 - y0).natAbs ≤ (x1 - x0).natAbs
    · rw [bresenhamRef_flat x0 y0 x1 y1 hba]
      simp only [List.length_map, List.length_range]
      omega
    · rw [bresenhamRef_steep x0 y0 x1 y1 hba]
      simp only [List.length_map, List.length_range]
      omega
  · rw [hlp]
    by_cases hba : (y1 - y0).natAbs ≤ (x1 - x0).natAbs
    · rw [bresenhamRef_flat x0 y0 x1 y1 hba, List.range_succ_eq_map]
      simp [bresPix, bresStep_zero]
    · rw [bresenhamRef_steep x0 y0 x1 y1 hba, List.range_succ_eq_map]
      simp [bresPix, bresStep_zero]
  · rw [hlp]
    by_cases hba : (y1 - y0).natAbs ≤ (x1 - x0).natAbs
    · rw [bresenhamRef_flat x0 y0 x1 y1 hba, List.range_succ, List.map_append]
      simp only [List.map_cons, List.map_nil]
      rw [List.getLast?_concat]
      rcases Nat.eq_zero_or_pos (x1 - x0).natAbs with ha0 | ha

      · rw [ha0, show (y1 - y0).natAbs = 0 by omega]
        have hx : x1 = x0 := by omega
        have hy : y1 = y0 := by omega
        simp [bresPix, bresStep_zero, hx, hy]
      · rw [bresPix, bresStep_last _ _ ha]
        rw [Option.some.injEq, Prod.mk.injEq]
        constructor
        · split <;> omega
        · split <;> omega
    · rw [bresenhamRef_steep x0 y0 x1 y1 hba, List.range_succ, List.map_append]
      simp only [List.map_cons, List.map_nil]
      rw [List.getLast?_concat]
      have hb : 0 < (y1 - y0).natAbs := by omega
      rw [bresPix, bresStep_last _ _ hb]
      rw [Prod.swap_prod_mk, Option.some.injEq, Prod.mk.injEq]
      constructor
      · split <;> omega
      · split <;> omega
  · rw [hlp]
    by_cases hba : (y1 - y0).natAbs ≤ (x1 - x0).natAbs
    · rw [bresenhamRef_flat x0 y0 x1 y1 hba, List.chain'_map, List.chain'_range_succ]
      intro i hi
      constructor
      · right
        simp only [bresPix]
        push_cast
        ring
      · rcases bresStep_succ_cases (x1 - x0).natAbs (y1 - y0).natAbs i hba with hv | hv
        · left
          simp [bresPix, hv]
        · right
          simp only [bresPix, hv]
          push_cast
          ring
    · rw [bresenhamRef_steep x0 y0 x1 y1 hba, List.chain'_map, List.chain'_range_succ]
      intro j hj
      have hab : (x1 - x0).natAbs ≤ (y1 - y0).natAbs := by omega
      constructor
      · rcases bresStep_succ_cases (y1 - y0).natAbs (x1 - x0).natAbs j hab with hv | hv
        · left
          simp [bresPix, hv]
        · right
          simp only [bresPix, Prod.swap_prod_mk, hv]
          push_cast
          ring
      · right
        simp only [bresPix, Prod.swap_prod_mk]
        push_cast
        ring

/-- Witness for C8 at the endpoints `(0,0)` to `(3,2)` with fuel 9. -/
theorem draw_line_terminates_witness :
    lineLoopPts 9 0 0 3 2 (wrap32 |wrap32 (3 - (0 : Int))|)
        (wrap32 (-(wrap32 |wrap32 (2 - (0 : Int))|)))
        (if (0 : Int) < 3 then 1 else -1) (if (0 : Int) < 2 then 1 else -1)
        (wrap32 (wrap32 |wrap32 (3 - (0 : Int))| +
          wrap32 (-(wrap32 |wrap32 (2 - (0 : Int))|)))) = linePts 0 0 3 2 :=
  (draw_line_terminates 0 0 3 2 (by decide) (by decide) (by decide) (by decide)).1 9
    (by decide)

/-- Counterexample to C8 as stated: at the `i32`-valid endpoints
`(0,0) → (2^30,0)` the loop never breaks.  `2*err` wraps to a non-positive
`e2`, so `x0` never advances towards `x1 = 2^30`; after `2^30 + 2`
iterations — more than the `max(|dx|, |dy|) + 1 = 2^30 + 1` pixels the
claim allows before the break — the endpoint has not been visited and the
trace is still one pixel per iteration; and already the second pixel
`(0,-1)` steps `y0` away from `y1 = 0`. -/
theorem draw_line_terminates_cex :
    (2 ^ 30, (0 : Int)) ∉
        lineLoopPts (2 ^ 30 + 2) 0 0 (2 ^ 30) 0 (2 ^ 30) 0 1 (-1) (2 ^ 30) ∧
    (lineLoopPts (2 ^ 30 + 2) 0 0 (2 ^ 30) 0 (2 ^ 30) 0 1 (-1) (2 ^ 30)).length =
        2 ^ 30 + 2 ∧
    lineLoopPts 2 0 0 (2 ^ 30) 0 (2 ^ 30) 0 1 (-1) (2 ^ 30) = [(0, 0), (0, -1)] := by
  obtain ⟨hmem, hlen⟩ := lineLoopPts_overflow_stuck (2 ^ 30 + 2) 0 (2 ^ 30) (Or.inl rfl)
  exact ⟨fun hc => absurd (hmem _ hc) (by decide), hlen, by decide⟩

/-! ## C9: `draw_line` never writes outside the buffer -/

/-- The bounds-checked `draw_pixel` never panics: when the guard passes, the
3-byte write at `(y*WIDTH + x)*3` lies within the buffer. -/
lemma drawPixelChecked_eq (buf : List Nat) (x y : Nat) (c : Color) :
    drawPixelChecked buf x y c = some (drawPixel buf x y c) := by
  rw [drawPixelChecked, drawPixel]
  by_cases hg : WINDOW_WIDTH ≤ x ∨ buf.length % u32Mod / (WINDOW_WIDTH * 3) ≤ y
  · rw [if_pos hg, if_pos hg]
  · rw [if_neg hg, if_neg hg]
    push_neg at hg
    obtain ⟨hx, hy⟩ := hg
    have hmodle : buf.length % u32Mod ≤ buf.length := Nat.mod_le _ _
    have hbound : (y + 1) * (WINDOW_WIDTH * 3) ≤ buf.length % u32Mod := by
      rw [← Nat.le_div_iff_mul_le (by norm_num [WINDOW_WIDTH])]
      omega
    have hofs : (y * WINDOW_WIDTH + x) * 3 + 2 < buf.length := by
      have hW : WINDOW_WIDTH = 800 := rfl
      rw [hW] at hbound hx ⊢
      omega
    rw [setChecked, if_pos (by omega)]
    rw [Option.some_bind]
    rw [setChecked, if_pos (by simp only [List.length_set]; omega)]
    rw [Option.some_bind]
    rw [setChecked, if_pos (by simp only [List.length_set]; omega)]

/-- The bounds-checked loop never panics. -/
lemma drawLineLoopChecked_eq :
    ∀ (fuel : Nat) (buf : List Nat) (x0 y0 x1 y1 dx dy sx sy err : Int) (c : Color),
      drawLineLoopChecked fuel buf x0 y0 x1 y1 dx dy sx sy err c =
        some (drawLineLoop fuel buf x0 y0 x1 y1 dx dy sx sy err c) := by
  intro fuel
  induction fuel with
  | zero => intro buf x0 y0 x1 y1 dx dy sx sy err c; rfl
  | succ f ih =>
    intro buf x0 y0 x1 y1 dx dy sx sy err c
    simp only [drawLineLoopChecked, drawLineLoop, drawPixelChecked_eq, Option.some_bind]
    by_cases hb : x0 = x1 ∧ y0 = y1
    · rw [if_pos hb, if_pos hb]
    · rw [if_neg hb, if_neg hb]
      exact ih _ _ _ _ _ _ _ _ _ _ _

/-- C9: for every buffer (of any length) and all `i32` coordinates
(including negative ones), `draw_line` performs no out-of-bounds write and
never panics: the bounds-checked variant returns `some` of the unchecked
result, and any negative coordinate, cast to `u32`, is at least `2^31` and
therefore rejected by `draw_pixel`'s guard, both as a column and as a row. -/
theorem draw_line_safe :
    (∀ (buf : List Nat) (x0 y0 x1 y1 : Int) (c : Color),
        drawLineChecked buf x0 y0 x1 y1 c = some (drawLine buf x0 y0 x1 y1 c)) ∧
    (∀ z : Int, -(2 ^ 31) ≤ z → z < 0 →
        WINDOW_WIDTH ≤ toU32 z ∧
        (∀ (buf : List Nat) (y : Nat) (c : Color), drawPixel buf (toU32 z) y c = buf) ∧
        (∀ (buf : List Nat) (x : Nat) (c : Color), drawPixel buf x (toU32 z) c = buf)) := by
  constructor
  · intro buf x0 y0 x1 y1 c
    rw [drawLineChecked, drawLine]
    exact drawLineLoopChecked_eq _ _ _ _ _ _ _ _ _ _ _ _
  · intro z hlo hneg
    have htz : 2 ^ 31 ≤ toU32 z := by
      rw [toU32]
      have hm : (u32Mod : Int) = 4294967296 := by norm_num [u32Mod]
      rw [hm]
      omega
    have hW : WINDOW_WIDTH = 800 := rfl
    refine ⟨by omega, fun buf y c => ?_, fun buf x c => ?_⟩
    · rw [drawPixel, if_pos (Or.inl (by omega))]
    · have hrows : buf.length % u32Mod / (WINDOW_WIDTH * 3) ≤ toU32 z := by
        have hmod : buf.length % u32Mod < u32Mod :=
          Nat.mod_lt _ (by norm_num [u32Mod])
        have h1 : buf.length % u32Mod / (WINDOW_WIDTH * 3) ≤
            (u32Mod - 1) / (WINDOW_WIDTH * 3) := Nat.div_le_div_right (by omega)
        have h2 : (u32Mod - 1) / (WINDOW_WIDTH * 3) = 1789569 := by
          norm_num [u32Mod, WINDOW_WIDTH]
        omega
      rw [drawPixel, if_pos (Or.inr hrows)]

/-- Witness for C9: a concrete line with negative endpoints on a short
buffer, and the guard rejecting the cast of `-5`. -/
theorem draw_line_safe_witness :
    drawLineChecked [1, 2, 3] (-1) (-2) 2 1 white =
      some (drawLine [1, 2, 3] (-1) (-2) 2 1 white) ∧
    WINDOW_WIDTH ≤ toU32 (-5) :=
  ⟨draw_line_safe.1 [1, 2, 3] (-1) (-2) 2 1 white,
   (draw_line_safe.2 (-5) (by norm_num) (by norm_num)).1⟩

end RustyRenderer
